import Mathlib

/-!
Verification of the ProLoaF training core: a shallow embedding of
`utils/tensorloader.py`, `utils/metrics.py` and the training orchestration of
`source/train.py`, together with theorems settling the specification's claims.

Tensors of shape `[B, H, K]` (batch, forecast horizon, target variables) are
modelled as functions `Fin B → Fin H → Fin K → ℚ`; `torch.mean` over all
elements is the sum divided by the element count, and `torch.mean(dim=0)`
averages over the batch index only.
-/

namespace ProLoaF

/-! ## Tensor model -/

/-- A `[B, H, K]` tensor: batch × horizon × target-variable entries. -/
def Tensor3 (B H K : ℕ) : Type := Fin B → Fin H → Fin K → ℚ

/-- `torch.mean(t)`: mean over every element of the tensor. -/
def torchMean3 {B H K : ℕ} (t : Tensor3 B H K) : ℚ :=
  (∑ i : Fin B, ∑ j : Fin H, ∑ k : Fin K, t i j k) / (B * H * K)

/-- `torch.mean(t, dim=0)`: mean over the batch dimension only. -/
def torchMeanDim0 {B H K : ℕ} (t : Tensor3 B H K) (j : Fin H) (k : Fin K) : ℚ :=
  (∑ i : Fin B, t i j k) / B

/-! ## `utils/tensorloader.py` : `CustomTensorDataLoader`

The loader only ever slices its dataset by window index, so for the iteration
protocol the dataset is represented by its length (`len(self.dataset)`). -/

/-- Error raised by the loader constructor (`raise NotImplementedError`). -/
inductive LoaderErr : Type
  | notImplementedError : LoaderErr
deriving DecidableEq, Repr

/-- State of a constructed `CustomTensorDataLoader`. -/
structure CustomTensorDataLoader : Type where
  datasetLen : ℕ
  batch_size : ℕ
  shuffle : Bool
  drop_last : Bool
deriving DecidableEq, Repr

/-- `CustomTensorDataLoader.__init__`: rejects `drop_last=False` with
`NotImplementedError` before anything else; otherwise stores the fields. -/
def CustomTensorDataLoader.mk' (datasetLen batch_size : ℕ) (shuffle drop_last : Bool) :
    Except LoaderErr CustomTensorDataLoader :=
  if ¬ drop_last then Except.error LoaderErr.notImplementedError
  else Except.ok (CustomTensorDataLoader.mk datasetLen batch_size shuffle drop_last)

/-- `CustomTensorDataLoader.__len__`: `len(self.dataset) // self.batch_size`. -/
def CustomTensorDataLoader.len (L : CustomTensorDataLoader) : ℕ :=
  L.datasetLen / L.batch_size

/-- The flat index schedule drawn by `__iter__`: the first
`batch_size * (len(dataset) // batch_size)` entries of the shuffled
permutation, or `np.arange(n)` when unshuffled. -/
def CustomTensorDataLoader.iterIndices (L : CustomTensorDataLoader) (perm : List ℕ) : List ℕ :=
  let n := L.batch_size * (L.datasetLen / L.batch_size)
  if L.shuffle then perm.take n else List.range n

/-- `np.reshape(permutation, (len(self), batch_size))` followed by the
`__next__` loop: `k` successive rows of `B` indices each. -/
def toBatchRows (B : ℕ) : ℕ → List ℕ → List (List ℕ)
  | 0, _ => []
  | k + 1, l => l.take B :: toBatchRows B k (l.drop B)

/-- One full iteration pass of the loader: the sequence of index batches
yielded by `__next__` until `StopIteration`. -/
def CustomTensorDataLoader.iterBatches (L : CustomTensorDataLoader) (perm : List ℕ) :
    List (List ℕ) :=
  toBatchRows L.batch_size L.len (L.iterIndices perm)

/-! ## `utils/tensorloader.py` : `make_dataloader` head/tail alignment

The three extracted window stacks are aligned by the `if len(x_enc) > len(y)`
/ `elif len(x_enc) < len(y)` truncation before stacking; the stacks are
abstracted as lists of windows. -/

/-- The alignment step of `make_dataloader`: drop the last encoder window when
the encoder stack is longer, drop the first decoder and target windows when it
is shorter. -/
def make_dataloader_align {α : Type} (x_enc x_dec y : List α) :
    List α × List α × List α :=
  if x_enc.length > y.length then (x_enc.dropLast, x_dec, y)
  else if x_enc.length < y.length then (x_enc, x_dec.drop 1, y.drop 1)
  else (x_enc, x_dec, y)

/-! ## `utils/metrics.py`

Transcendental primitives of the tensor backend (`exp`, the standard-normal
pdf/cdf, `sqrt`, `1/sqrt(pi)`) have no exact rational counterpart; each
metric that uses one takes it as an explicit function parameter, applied
exactly where the source applies the backend primitive. -/

/-- Errors raised by the metric functions. -/
inductive MetricErr : Type
  | notImplementedError : MetricErr
  | assertionError : MetricErr
  | indexError : MetricErr
deriving DecidableEq, Repr

/-- Result of a metric call: a scalar for `total=True`, a per-step
(horizon × target-variable) array for `total=False`. -/
inductive MetricResult (H K : ℕ) : Type
  | scalar : ℚ → MetricResult H K
  | horizon : (Fin H → Fin K → ℚ) → MetricResult H K

/-- `nll_gauss(target, [expected_value, log_variance], total)`:
`(target-μ)² / (2·exp(logσ²)) + 0.5·logσ²`, meaned over everything
(`total=True`) or over the batch only (`total=False`). `exp` is the
backend exponential, passed as `e`. -/
def nll_gauss {B H K : ℕ} (e : ℚ → ℚ) (target : Tensor3 B H K)
    (predictions : List (Tensor3 B H K)) (total : Bool) :
    Except MetricErr (MetricResult H K) :=
  match predictions with
  | [expected_value, log_variance] =>
    let pointwise : Tensor3 B H K := fun i j k =>
      (target i j k - expected_value i j k) ^ 2 / (2 * e (log_variance i j k))
        + (1 / 2) * log_variance i j k
    if total then Except.ok (MetricResult.scalar (torchMean3 pointwise))
    else Except.ok (MetricResult.horizon (torchMeanDim0 pointwise))
  | _ => Except.error MetricErr.assertionError

/-- The quantile loop of `pinball_loss`: for each quantile `q` (asserted to lie
in `(0,1)`) take `predictions[i]` and add the mean of
`max(q·err, (q-1)·err)` to the accumulator. -/
def pinball_go {B H K : ℕ} (target : Tensor3 B H K) :
    List (Tensor3 B H K) → List ℚ → ℚ → Except MetricErr ℚ
  | _, [], acc => Except.ok acc
  | preds, q :: qs, acc =>
    if ¬ (0 < q) then Except.error MetricErr.assertionError
    else if ¬ (q < 1) then Except.error MetricErr.assertionError
    else
      match preds with
      | [] => Except.error MetricErr.indexError
      | p :: ps =>
        pinball_go target ps qs
          (acc + torchMean3 (fun i j k =>
            max (q * (target i j k - p i j k)) ((q - 1) * (target i j k - p i j k))))

/-- `pinball_loss(target, predictions, quantiles, total)`: refuses
`total=False` with `NotImplementedError` before touching any prediction,
then sums the per-quantile pinball means. -/
def pinball_loss {B H K : ℕ} (target : Tensor3 B H K)
    (predictions : List (Tensor3 B H K)) (quantiles : List ℚ) (total : Bool) :
    Except MetricErr ℚ :=
  if ¬ total then Except.error MetricErr.notImplementedError
  else pinball_go target predictions quantiles 0

/-- `crps_gaussian(target, [mu, log_variance], total)`: asserts exactly two
predictions, refuses `total=False`, else returns the mean closed-form CRPS.
`e` is the backend `exp`, `pdf`/`cdf` the standard-normal density and
distribution functions, `pi_inv` the constant `1/sqrt(pi)`. -/
def crps_gaussian {B H K : ℕ} (e pdf cdf : ℚ → ℚ) (pi_inv : ℚ)
    (target : Tensor3 B H K) (predictions : List (Tensor3 B H K)) (total : Bool) :
    Except MetricErr ℚ :=
  match predictions with
  | [mu, log_variance] =>
    if ¬ total then Except.error MetricErr.notImplementedError
    else
      Except.ok (torchMean3 (fun i j k =>
        let sig := e (log_variance i j k * (1 / 2))
        let sx := (target i j k - mu i j k) / sig
        sig * (sx * (2 * cdf sx - 1) + 2 * pdf sx - pi_inv)))
  | _ => Except.error MetricErr.assertionError

/-- `mse(target, predictions, total)`: mean of `(target - predictions[0])²`,
over everything or per step. Equal shapes are enforced by the tensor types
(the source raises `ValueError` on mismatch). -/
def mse {B H K : ℕ} (target : Tensor3 B H K)
    (predictions : List (Tensor3 B H K)) (total : Bool) :
    Except MetricErr (MetricResult H K) :=
  match predictions with
  | [] => Except.error MetricErr.indexError
  | p :: _ =>
    let squared_errors : Tensor3 B H K := fun i j k => (target i j k - p i j k) ^ 2
    if total then Except.ok (MetricResult.scalar (torchMean3 squared_errors))
    else Except.ok (MetricResult.horizon (torchMeanDim0 squared_errors))

/-- `rmse(target, predictions, total)`: recomputes the squared errors and
applies the backend square root `sq` to the mean (or to each per-step
mean). -/
def rmse {B H K : ℕ} (sq : ℚ → ℚ) (target : Tensor3 B H K)
    (predictions : List (Tensor3 B H K)) (total : Bool) :
    Except MetricErr (MetricResult H K) :=
  match predictions with
  | [] => Except.error MetricErr.indexError
  | p :: _ =>
    let squared_errors : Tensor3 B H K := fun i j k => (target i j k - p i j k) ^ 2
    if total then Except.ok (MetricResult.scalar (sq (torchMean3 squared_errors)))
    else Except.ok (MetricResult.horizon (fun j k => sq (torchMeanDim0 squared_errors j k)))

/-- `picp(target, [upper, lower], total)`: per (step, variable), 100 × the
fraction of batch entries with `lower < target ≤ upper`; the total sums those
percentages over every (step, variable) cell and divides by the number of
horizon steps `target.shape[1]` only. -/
def picp {B H K : ℕ} (target : Tensor3 B H K)
    (predictions : List (Tensor3 B H K)) (total : Bool) :
    Except MetricErr (MetricResult H K) :=
  match predictions with
  | [y_pred_upper, y_pred_lower] =>
    let covered : Fin B → Fin H → Fin K → Bool := fun i j k =>
      decide (y_pred_lower i j k < target i j k) && decide (target i j k ≤ y_pred_upper i j k)
    let coverage_horizon : Fin H → Fin K → ℚ := fun j k =>
      100 * (∑ i : Fin B, if covered i j k then (1 : ℚ) else 0) / B
    let coverage_total : ℚ := (∑ j : Fin H, ∑ k : Fin K, coverage_horizon j k) / H
    if total then Except.ok (MetricResult.scalar coverage_total)
    else Except.ok (MetricResult.horizon coverage_horizon)
  | _ => Except.error MetricErr.assertionError

/-! ## Early stopping and the epoch loop of `source/train.py: train`

The network together with its optimizer state is abstracted as a value of a
parameter type `P`; one epoch of batch updates is an abstract function
`stepE : P → P` and the validation pass an abstract function
`valLoss : P → ℚ` (both deterministic in the source given the loader
state). -/

/-- Modelled from the spec: the `EarlyStopping` controller state of
`utils/modelhandler.py`, which is not part of the sources here. Fields follow
§3/§4.4: `val_loss_min` (init `+infinity`, encoded as `none`), `counter`
(init 0), `patience`, `delta` = ε, `early_stop` (init `False`) and the
best-parameter `checkpoint`. -/
structure EarlyStoppingState (P : Type) : Type where
  val_loss_min : Option ℚ
  counter : ℕ
  patience : ℕ
  delta : ℚ
  early_stop : Bool
  checkpoint : Option P

/-- The freshly constructed controller: no loss seen, counter 0, not
stopped, no checkpoint. -/
def EarlyStoppingState.init (P : Type) (patience : ℕ) (delta : ℚ) :
    EarlyStoppingState P :=
  ⟨none, 0, patience, delta, false, none⟩

/-- Modelled from the spec: the strict-improvement test of §4.4,
`validation_loss < best_loss - ε`, true against the initial `+infinity`. -/
def esImproves (val_loss_min : Option ℚ) (delta validation_loss : ℚ) : Bool :=
  match val_loss_min with
  | none => true
  | some best => decide (validation_loss < best - delta)

/-- Modelled from the spec: one `early_stopping(validation_loss, net)` call
(§4.4). Strict improvement resets the counter, records the loss and
checkpoints the model; otherwise the counter increments and reaching
`patience` sets `early_stop`. -/
def earlyStoppingUpdate {P : Type} (s : EarlyStoppingState P) (validation_loss : ℚ)
    (net : P) : EarlyStoppingState P :=
  cond (esImproves s.val_loss_min s.delta validation_loss)
    ⟨some validation_loss, 0, s.patience, s.delta, s.early_stop, some net⟩
    ⟨s.val_loss_min, s.counter + 1, s.patience, s.delta,
      s.early_stop || decide (s.patience ≤ s.counter + 1), s.checkpoint⟩

/-- Result of the epoch loop of `train`: the network the loop leaves behind,
the final controller state, whether the `break` on `early_stop` was taken,
and the validation losses observed epoch by epoch (oldest first). -/
structure TrainLoopResult (P : Type) : Type where
  net : P
  es : EarlyStoppingState P
  stoppedEarly : Bool
  losses : List ℚ

/-- The `for epoch in range(max_epochs)` loop of `train`: each epoch trains
(`stepE`), validates (`valLoss`), updates the controller, and on
`early_stopping.early_stop` reloads the checkpoint
(`net.load_state_dict(torch.load(... "checkpoint.pt"))`) and breaks. The
`getD` fallback is unreachable whenever a checkpoint exists (proved below). -/
def trainLoop {P : Type} (stepE : P → P) (valLoss : P → ℚ) :
    ℕ → P → EarlyStoppingState P → List ℚ → TrainLoopResult P
  | 0, net, es, acc => ⟨net, es, false, acc⟩
  | maxE + 1, net, es, acc =>
    let net1 := stepE net
    let vloss := valLoss net1
    let es1 := earlyStoppingUpdate es vloss net1
    cond es1.early_stop
      ⟨es1.checkpoint.getD net1, es1, true, acc ++ [vloss]⟩
      (trainLoop stepE valLoss maxE net1 es1 (acc ++ [vloss]))

/-- `train` as called from `main`: fresh controller, empty loss history. -/
def train {P : Type} (stepE : P → P) (valLoss : P → ℚ) (max_epochs : ℕ)
    (net : P) (patience : ℕ) (delta : ℚ) : TrainLoopResult P :=
  trainLoop stepE valLoss max_epochs net (EarlyStoppingState.init P patience delta) []

/-! ## Run controller of `source/train.py: main`

The model-improvement decision (`score_sofar > new_score`) and the
`finally:` persistence block (`if min_net is not None: torch.save(...);
write_config(...)`). -/

/-- `score_sofar`: the previously best-recorded score, with a missing or
`None` entry read as `np.inf` (the top element). -/
def score_sofar (best_score : Option ℚ) : WithTop ℚ :=
  match best_score with
  | some s => (s : WithTop ℚ)
  | none => ⊤

/-- Outcome of the improvement decision and the `finally:` block: the model
written to disk (if any), the recorded best score/loss, and whether the
configuration file was rewritten. -/
structure RunOutcome (M : Type) : Type where
  savedModel : Option M
  best_score : Option ℚ
  best_loss : Option ℚ
  configWritten : Bool

/-- The run controller's decision in `main`: `min_net` is set to the new
network exactly when `score_sofar > new_score`; the `finally:` block saves
the model and rewrites the configuration exactly when `min_net` is set, and
discards the new model otherwise. -/
def runDecision {M : Type} (prev_best_score prev_best_loss : Option ℚ)
    (new_score new_loss : ℚ) (net : M) : RunOutcome M :=
  if (new_score : WithTop ℚ) < score_sofar prev_best_score then
    ⟨some net, some new_score, some new_loss, true⟩
  else
    ⟨none, prev_best_score, prev_best_loss, false⟩

/-! ## Theorems -/

/-- C2: constructing the batch iterator with `drop_last=False` raises
`NotImplementedError` in the constructor, before any batch can be produced;
constructing it with `drop_last=True` succeeds, for every dataset length,
batch size and shuffle flag. -/
theorem dataloader_drop_last_guard (datasetLen batch_size : ℕ) (shuffle : Bool) :
    CustomTensorDataLoader.mk' datasetLen batch_size shuffle false
      = Except.error LoaderErr.notImplementedError ∧
    CustomTensorDataLoader.mk' datasetLen batch_size shuffle true
      = Except.ok (CustomTensorDataLoader.mk datasetLen batch_size shuffle true) := by
  exact ⟨rfl, rfl⟩

/-- C4: after the `make_dataloader` alignment step, the three window stacks
share one leading dimension: when the decoder and target stacks agree and the
encoder stack differs from them by at most one, the encoder stack is
truncated by one at the tail when longer, and the decoder and target stacks
are truncated by one at the head when it is shorter, leaving all three
lengths equal. -/
theorem make_dataloader_alignment {α : Type} (x_enc x_dec y : List α)
    (hdec : x_dec.length = y.length)
    (hdiff : x_enc.length = y.length ∨ x_enc.length = y.length + 1 ∨
      x_enc.length + 1 = y.length) :
    (make_dataloader_align x_enc x_dec y).1.length
        = (make_dataloader_align x_enc x_dec y).2.1.length ∧
    (make_dataloader_align x_enc x_dec y).2.1.length
        = (make_dataloader_align x_enc x_dec y).2.2.length ∧
    (x_enc.length = y.length + 1 →
      make_dataloader_align x_enc x_dec y = (x_enc.dropLast, x_dec, y)) ∧
    (x_enc.length + 1 = y.length →
      make_dataloader_align x_enc x_dec y = (x_enc, x_dec.drop 1, y.drop 1)) := by
  unfold make_dataloader_align
  rcases hdiff with h | h | h
  · have hng : ¬ x_enc.length > y.length := by omega
    have hnl : ¬ x_enc.length < y.length := by omega
    rw [if_neg hng, if_neg hnl]
    refine ⟨?_, ?_, fun hc => absurd hc (by omega), fun hc => absurd hc (by omega)⟩
    · show x_enc.length = x_dec.length
      omega
    · show x_dec.length = y.length
      omega
  · have hgt : x_enc.length > y.length := by omega
    rw [if_pos hgt]
    refine ⟨?_, ?_, fun _ => rfl, fun hc => absurd hc (by omega)⟩
    · show x_enc.dropLast.length = x_dec.length
      rw [List.length_dropLast]; omega
    · show x_dec.length = y.length
      omega
  · have hng : ¬ x_enc.length > y.length := by omega
    have hlt : x_enc.length < y.length := by omega
    rw [if_neg hng, if_pos hlt]
    refine ⟨?_, ?_, fun hc => absurd hc (by omega), fun _ => rfl⟩
    · show x_enc.length = (x_dec.drop 1).length
      rw [List.length_drop]; omega
    · show (x_dec.drop 1).length = (y.drop 1).length
      rw [List.length_drop, List.length_drop]; omega

/-- C4 witness: a run of the alignment at concrete stacks where the encoder
stack is longer by one. -/
theorem make_dataloader_alignment_witness :
    (make_dataloader_align [0, 1] [5] [7]).1.length
        = (make_dataloader_align [0, 1] [5] [7]).2.1.length ∧
    (make_dataloader_align [0, 1] [5] [7]).2.1.length
        = (make_dataloader_align [0, 1] [5] [7]).2.2.length ∧
    (([0, 1] : List ℕ).length = ([7] : List ℕ).length + 1 →
      make_dataloader_align [0, 1] [5] [7] = ([0, 1].dropLast, [5], [7])) ∧
    (([0, 1] : List ℕ).length + 1 = ([7] : List ℕ).length →
      make_dataloader_align [0, 1] [5] [7] = ([0, 1], [5].drop 1, [7].drop 1)) :=
  make_dataloader_alignment [0, 1] [5] [7] (by decide) (by decide)

/-- C5: `pinball_loss` with `total=False` raises `NotImplementedError` before
touching any prediction or quantile, and `crps_gaussian` with `total=False`
raises `NotImplementedError` on its two-prediction contract; `crps_gaussian`
never returns a value when `total=False`, whatever the prediction list. -/
theorem pinball_crps_total_false_raise (B H K : ℕ) (e pdf cdf : ℚ → ℚ) (pi_inv : ℚ)
    (target mu lv : Tensor3 B H K) (predictions : List (Tensor3 B H K))
    (quantiles : List ℚ) :
    pinball_loss target predictions quantiles false
      = Except.error MetricErr.notImplementedError ∧
    crps_gaussian e pdf cdf pi_inv target [mu, lv] false
      = Except.error MetricErr.notImplementedError ∧
    ∀ v : ℚ, crps_gaussian e pdf cdf pi_inv target predictions false ≠ Except.ok v := by
  refine ⟨rfl, rfl, fun v => ?_⟩
  match predictions with
  | [] => exact fun h => by cases h
  | [_] => exact fun h => by cases h
  | [_, _] => exact fun h => by cases h
  | _ :: _ :: _ :: _ => exact fun h => by cases h

/-- C9: the run controller persists the newly trained model (and rewrites the
configuration) exactly when the new test score is strictly below the
previously best-recorded one, a missing previous score standing for positive
infinity so that a run with no baseline always persists; on non-improvement
nothing is saved, nothing is rewritten and the recorded bests are kept. -/
theorem run_model_persistence_iff {M : Type} (prev_best_score prev_best_loss : Option ℚ)
    (new_score new_loss : ℚ) (net : M) :
    ((runDecision prev_best_score prev_best_loss new_score new_loss net).savedModel
        = some net ∧
      (runDecision prev_best_score prev_best_loss new_score new_loss net).configWritten
        = true ↔
      (prev_best_score = none ∨ ∃ s, prev_best_score = some s ∧ new_score < s)) ∧
    (runDecision none prev_best_loss new_score new_loss net).savedModel = some net ∧
    (¬ (prev_best_score = none ∨ ∃ s, prev_best_score = some s ∧ new_score < s) →
      runDecision prev_best_score prev_best_loss new_score new_loss net
        = ⟨none, prev_best_score, prev_best_loss, false⟩) := by
  have key : ∀ pbs : Option ℚ, ((new_score : WithTop ℚ) < score_sofar pbs ↔
      (pbs = none ∨ ∃ s, pbs = some s ∧ new_score < s)) := by
    intro pbs
    cases pbs with
    | none =>
      constructor
      · intro _
        exact Or.inl rfl
      · intro _
        exact WithTop.coe_lt_top new_score
    | some s =>
      constructor
      · intro h
        exact Or.inr ⟨s, rfl, WithTop.coe_lt_coe.mp h⟩
      · rintro (h | ⟨s', hs', hlt⟩)
        · cases h
        · cases Option.some.inj hs'
          exact WithTop.coe_lt_coe.mpr hlt
  constructor
  · unfold runDecision
    by_cases h : (new_score : WithTop ℚ) < score_sofar prev_best_score
    · rw [if_pos h]
      exact ⟨fun _ => (key prev_best_score).mp h, fun _ => ⟨rfl, rfl⟩⟩
    · rw [if_neg h]
      constructor
      · intro hc
        exact Option.noConfusion hc.1
      · intro himp
        exact absurd ((key prev_best_score).mpr himp) h
  refine ⟨?_, ?_⟩
  · unfold runDecision
    rw [if_pos ((key none).mpr (Or.inl rfl))]
  · intro hni
    unfold runDecision
    rw [if_neg (fun hlt => hni ((key prev_best_score).mp hlt))]

/-- C9 witness: with a recorded best score of 5, a new score of 3 persists;
the non-improvement implication is exercised vacuously at these inputs. -/
theorem run_model_persistence_iff_witness :
    (((@runDecision ℕ (some 5) (some 2) 3 1 0).savedModel = some 0 ∧
      (@runDecision ℕ (some 5) (some 2) 3 1 0).configWritten = true ↔
      ((some 5 : Option ℚ) = none ∨ ∃ s, (some 5 : Option ℚ) = some s ∧ (3 : ℚ) < s)) ∧
    (@runDecision ℕ none (some 2) 3 1 0).savedModel = some 0 ∧
    (¬ ((some 5 : Option ℚ) = none ∨ ∃ s, (some 5 : Option ℚ) = some s ∧ (3 : ℚ) < s) →
      @runDecision ℕ (some 5) (some 2) 3 1 0 = ⟨none, some 5, some 2, false⟩)) :=
  run_model_persistence_iff (some 5) (some 2) 3 1 0

theorem toBatchRows_length (B : ℕ) : ∀ (k : ℕ) (l : List ℕ), (toBatchRows B k l).length = k
  | 0, _ => rfl
  | k + 1, l => by
    show (toBatchRows B k (l.drop B)).length + 1 = k + 1
    rw [toBatchRows_length B k]

theorem toBatchRows_row_length (B : ℕ) : ∀ (k : ℕ) (l : List ℕ), l.length = k * B →
    ∀ b ∈ toBatchRows B k l, b.length = B := by
  intro k
  induction k with
  | zero => intro l _ b hb; cases hb
  | succ n ih =>
    intro l hl b hb
    cases hb with
    | head =>
      rw [List.length_take, hl]
      have : B ≤ (n + 1) * B := Nat.le_mul_of_pos_left B (Nat.succ_pos n)
      omega
    | tail _ hb =>
      exact ih (l.drop B) (by rw [List.length_drop, hl, Nat.succ_mul]; omega) b hb

theorem toBatchRows_flatten (B : ℕ) : ∀ (k : ℕ) (l : List ℕ),
    (toBatchRows B k l).flatten = l.take (k * B)
  | 0, l => by
    show ([] : List ℕ) = l.take (0 * B)
    rw [Nat.zero_mul, List.take_zero]
  | k + 1, l => by
    show l.take B ++ (toBatchRows B k (l.drop B)).flatten = l.take ((k + 1) * B)
    rw [toBatchRows_flatten B k, ← List.take_add]
    congr 1
    rw [Nat.succ_mul]
    omega

theorem toBatchRows_mem_mem (B : ℕ) : ∀ (k : ℕ) (l b : List ℕ),
    b ∈ toBatchRows B k l → ∀ x ∈ b, x ∈ l := by
  intro k
  induction k with
  | zero => intro l b hb; cases hb
  | succ n ih =>
    intro l b hb x hx
    cases hb with
    | head => exact List.mem_of_mem_take hx
    | tail _ hb => exact List.mem_of_mem_drop (ih (l.drop B) b hb x hx)

theorem iterIndices_length (L : CustomTensorDataLoader) (perm : List ℕ)
    (hperm : L.shuffle = true → perm.length = L.datasetLen) :
    (L.iterIndices perm).length = L.len * L.batch_size := by
  unfold CustomTensorDataLoader.iterIndices CustomTensorDataLoader.len
  cases hs : L.shuffle with
  | true =>
    have hle : L.batch_size * (L.datasetLen / L.batch_size) ≤ L.datasetLen := by
      calc L.batch_size * (L.datasetLen / L.batch_size)
          = L.datasetLen / L.batch_size * L.batch_size := Nat.mul_comm ..
        _ ≤ L.datasetLen := Nat.div_mul_le_self ..
    rw [if_pos rfl, List.length_take, hperm hs, Nat.min_eq_left hle, Nat.mul_comm]
  | false =>
    rw [if_neg (fun h => by cases h), List.length_range]
    exact Nat.mul_comm ..

theorem iterIndices_nodup (L : CustomTensorDataLoader) (perm : List ℕ)
    (hperm : L.shuffle = true → perm.Perm (List.range L.datasetLen)) :
    (L.iterIndices perm).Nodup := by
  unfold CustomTensorDataLoader.iterIndices
  cases hs : L.shuffle with
  | true =>
    rw [if_pos rfl]
    exact (((hperm hs).nodup_iff).mpr (List.nodup_range _)).sublist
      (List.take_sublist _ perm)
  | false =>
    rw [if_neg (fun h => by cases h)]
    exact List.nodup_range _

theorem iterIndices_mem_lt (L : CustomTensorDataLoader) (perm : List ℕ)
    (hperm : L.shuffle = true → perm.Perm (List.range L.datasetLen)) :
    ∀ x ∈ L.iterIndices perm, x < L.datasetLen := by
  intro x hx
  unfold CustomTensorDataLoader.iterIndices at hx
  by_cases hs : L.shuffle = true
  · rw [if_pos hs] at hx
    exact List.mem_range.mp (((hperm hs).mem_iff).mp (List.mem_of_mem_take hx))
  · rw [if_neg hs] at hx
    have hxn := List.mem_range.mp hx
    have hle : L.batch_size * (L.datasetLen / L.batch_size) ≤ L.datasetLen := by
      calc L.batch_size * (L.datasetLen / L.batch_size)
          = L.datasetLen / L.batch_size * L.batch_size := Nat.mul_comm ..
        _ ≤ L.datasetLen := Nat.div_mul_le_self ..
    omega

/-- C3: for every dataset of `N` windows and batch size `B ≥ 1` (with the
shuffle permutation drawn over the whole dataset), `len(iterator)` is exactly
`N // B`, one iteration pass yields exactly `N // B` batches, and every
yielded batch holds exactly `B` window indices — the trailing remainder is
discarded. -/
theorem dataloader_len_and_batch_shapes (L : CustomTensorDataLoader) (perm : List ℕ)
    (hB : 1 ≤ L.batch_size) (hperm : L.shuffle = true → perm.length = L.datasetLen) :
    L.len = L.datasetLen / L.batch_size ∧
    (L.iterBatches perm).length = L.datasetLen / L.batch_size ∧
    ∀ b ∈ L.iterBatches perm, b.length = L.batch_size := by
  refine ⟨rfl, ?_, ?_⟩
  · exact toBatchRows_length L.batch_size L.len (L.iterIndices perm)
  · exact toBatchRows_row_length L.batch_size L.len (L.iterIndices perm)
      (iterIndices_length L perm hperm)

/-- C3 witness: 10 windows, batch size 3, unshuffled: 3 batches of 3. -/
theorem dataloader_len_and_batch_shapes_witness :
    (CustomTensorDataLoader.mk 10 3 false true).len = 10 / 3 ∧
    ((CustomTensorDataLoader.mk 10 3 false true).iterBatches []).length = 10 / 3 ∧
    ∀ b ∈ (CustomTensorDataLoader.mk 10 3 false true).iterBatches [], b.length = 3 :=
  dataloader_len_and_batch_shapes (CustomTensorDataLoader.mk 10 3 false true) []
    (by decide) (by decide)

/-- C10: within one iteration pass, shuffled (by any permutation of the
window indices) or not, the yielded batches are pairwise disjoint index sets
and every yielded index is a valid window index, because the pass's schedule
is a reshaped prefix of a permutation or of the identity sequence. -/
theorem iter_batches_disjoint_and_valid (L : CustomTensorDataLoader) (perm : List ℕ)
    (hperm : L.shuffle = true → perm.Perm (List.range L.datasetLen)) :
    List.Pairwise List.Disjoint (L.iterBatches perm) ∧
    ∀ b ∈ L.iterBatches perm, ∀ i ∈ b, i < L.datasetLen := by
  constructor
  · have hnf : (L.iterBatches perm).flatten.Nodup := by
      rw [CustomTensorDataLoader.iterBatches, toBatchRows_flatten]
      exact (iterIndices_nodup L perm hperm).sublist (List.take_sublist _ _)
    exact (List.nodup_flatten.mp hnf).2
  · intro b hb i hi
    exact iterIndices_mem_lt L perm hperm i
      (toBatchRows_mem_mem L.batch_size L.len (L.iterIndices perm) b hb i hi)

/-- C10 witness: 4 windows, batch size 2, shuffled by the permutation
`[2, 0, 3, 1]`. -/
theorem iter_batches_disjoint_and_valid_witness :
    List.Pairwise List.Disjoint
      ((CustomTensorDataLoader.mk 4 2 true true).iterBatches [2, 0, 3, 1]) ∧
    ∀ b ∈ (CustomTensorDataLoader.mk 4 2 true true).iterBatches [2, 0, 3, 1],
      ∀ i ∈ b, i < 4 :=
  iter_batches_disjoint_and_valid (CustomTensorDataLoader.mk 4 2 true true)
    [2, 0, 3, 1] (fun _ => by decide)

/-- C6: `nll_gauss` with `total=True` returns the mean over all
batch × horizon × variable positions of
`(target-μ)²/(2·e^{logσ²}) + 0.5·logσ²`, and with `total=False` the same
expression averaged over the batch dimension only, one value per forecast
step (and target variable); the scalar equals the mean over steps of the
per-step batch means. -/
theorem nll_gauss_total_flag_means (B H K : ℕ) (e : ℚ → ℚ)
    (target expected_value log_variance : Tensor3 B H K) :
    nll_gauss e target [expected_value, log_variance] true
      = Except.ok (MetricResult.scalar
        ((∑ i : Fin B, ∑ j : Fin H, ∑ k : Fin K,
          ((target i j k - expected_value i j k) ^ 2 / (2 * e (log_variance i j k))
            + (1 / 2) * log_variance i j k)) / ((B : ℚ) * H * K))) ∧
    nll_gauss e target [expected_value, log_variance] false
      = Except.ok (MetricResult.horizon (fun j k =>
        (∑ i : Fin B,
          ((target i j k - expected_value i j k) ^ 2 / (2 * e (log_variance i j k))
            + (1 / 2) * log_variance i j k)) / (B : ℚ))) ∧
    (∑ i : Fin B, ∑ j : Fin H, ∑ k : Fin K,
        ((target i j k - expected_value i j k) ^ 2 / (2 * e (log_variance i j k))
          + (1 / 2) * log_variance i j k)) / ((B : ℚ) * H * K)
      = (∑ j : Fin H, ∑ k : Fin K,
          (∑ i : Fin B,
            ((target i j k - expected_value i j k) ^ 2 / (2 * e (log_variance i j k))
              + (1 / 2) * log_variance i j k)) / (B : ℚ)) / ((H : ℚ) * K) := by
  refine ⟨rfl, rfl, ?_⟩
  have hswap : (∑ i : Fin B, ∑ j : Fin H, ∑ k : Fin K,
      ((target i j k - expected_value i j k) ^ 2 / (2 * e (log_variance i j k))
        + (1 / 2) * log_variance i j k))
      = ∑ j : Fin H, ∑ k : Fin K, ∑ i : Fin B,
        ((target i j k - expected_value i j k) ^ 2 / (2 * e (log_variance i j k))
          + (1 / 2) * log_variance i j k) := by
    rw [Finset.sum_comm]
    exact Finset.sum_congr rfl (fun j _ => Finset.sum_comm)
  rw [hswap]
  rw [show (∑ j : Fin H, ∑ k : Fin K,
      (∑ i : Fin B,
        ((target i j k - expected_value i j k) ^ 2 / (2 * e (log_variance i j k))
          + (1 / 2) * log_variance i j k)) / (B : ℚ))
      = (∑ j : Fin H, ∑ k : Fin K, ∑ i : Fin B,
        ((target i j k - expected_value i j k) ^ 2 / (2 * e (log_variance i j k))
          + (1 / 2) * log_variance i j k)) / (B : ℚ) from by
    rw [Finset.sum_div]
    exact Finset.sum_congr rfl (fun j _ => by rw [Finset.sum_div])]
  rw [div_div, mul_assoc]

/-- Pointwise application of a scalar function to a metric result. -/
def MetricResult.map {H K : ℕ} (f : ℚ → ℚ) : MetricResult H K → MetricResult H K
  | MetricResult.scalar x => MetricResult.scalar (f x)
  | MetricResult.horizon v => MetricResult.horizon (fun j k => f (v j k))

/-- C8: `mse(target, [target])` is zero, as a total scalar and per horizon
step, and `rmse` is exactly the backend square root applied to the value
`mse` computes, in both the `total=True` and `total=False` forms. -/
theorem mse_zero_and_rmse_sqrt_of_mse (B H K : ℕ) (sq : ℚ → ℚ)
    (target p : Tensor3 B H K) (total : Bool) :
    mse target [target] true = Except.ok (MetricResult.scalar 0) ∧
    mse target [target] false = Except.ok (MetricResult.horizon (fun _ _ => 0)) ∧
    rmse sq target [p] total = Except.map (MetricResult.map sq) (mse target [p] total) := by
  refine ⟨?_, ?_, ?_⟩
  · show Except.ok (MetricResult.scalar
      (torchMean3 (fun i j k => (target i j k - target i j k) ^ 2))) = _
    have hz : @torchMean3 B H K
        (fun i j k => (target i j k - target i j k) ^ 2) = 0 := by
      simp [torchMean3]
    rw [hz]
  · show Except.ok (MetricResult.horizon
      (torchMeanDim0 (fun i j k => (target i j k - target i j k) ^ 2))) = _
    have hz : @torchMeanDim0 B H K
        (fun i j k => (target i j k - target i j k) ^ 2) = fun _ _ => 0 := by
      funext j k
      simp [torchMeanDim0]
    rw [hz]
  · cases total with
    | true => rfl
    | false => rfl

/-- C7 counterexample: with two target variables per horizon step
(`K = 2`), a fully and strictly covered target makes `picp` with
`total=True` return 200, outside `[0, 100]` and different from 100 — the
total divides the summed per-cell percentages by the number of horizon
steps only, not by the number of variables. -/
theorem picp_total_exceeds_100 :
    @picp 1 1 2 (fun _ _ _ => 0) [fun _ _ _ => 1, fun _ _ _ => -1] true
      = Except.ok (MetricResult.scalar 200) ∧
    ¬ ((0 : ℚ) ≤ 200 ∧ (200 : ℚ) ≤ 100) ∧ (200 : ℚ) ≠ 100 := by
  refine ⟨?_, by norm_num, by norm_num⟩
  show Except.ok (MetricResult.scalar _) = Except.ok (MetricResult.scalar 200)
  norm_num [Fin.sum_univ_succ]

/-- The value `picp` computes for `total=True`, written out. -/
theorem picp_total_value (B H K : ℕ) (target u l : Tensor3 B H K) :
    picp target [u, l] true = Except.ok (MetricResult.scalar
      ((∑ j : Fin H, ∑ k : Fin K,
        100 * (∑ i : Fin B,
          if (decide (l i j k < target i j k) && decide (target i j k ≤ u i j k)) = true
          then (1 : ℚ) else 0) / B) / H)) := rfl

/-- C7 (amended): for a single target variable per horizon step (`K = 1`)
and nonempty batch and horizon, `picp` with `total=True` lies within
`[0, 100]`; it counts a target as covered exactly when it lies in the
half-open interval `(lower, upper]`, averages coverage per horizon step and
then across steps, and returns exactly 100 when every target lies strictly
between its bounds. (For `K` target variables the same total can reach
`100·K`, as the counterexample shows.) -/
theorem picp_single_variable_bounds (B H : ℕ) (target u l : Tensor3 B H 1)
    (hB : 0 < B) (hH : 0 < H) :
    ∃ v : ℚ,
      picp target [u, l] true = Except.ok (MetricResult.scalar v) ∧
      v = (∑ j : Fin H, ∑ k : Fin 1,
        100 * (∑ i : Fin B,
          if (decide (l i j k < target i j k) && decide (target i j k ≤ u i j k)) = true
          then (1 : ℚ) else 0) / (B : ℚ)) / (H : ℚ) ∧
      0 ≤ v ∧ v ≤ 100 ∧
      ((∀ (i : Fin B) (j : Fin H) (k : Fin 1),
          l i j k < target i j k ∧ target i j k < u i j k) → v = 100) := by
  have hBQ : (0 : ℚ) < B := by exact_mod_cast hB
  have hHQ : (0 : ℚ) < H := by exact_mod_cast hH
  have key : ∀ c : Fin H → Fin 1 → ℚ, (∀ j k, 0 ≤ c j k) → (∀ j k, c j k ≤ (B : ℚ)) →
      0 ≤ (∑ j : Fin H, ∑ k : Fin 1, 100 * c j k / (B : ℚ)) / (H : ℚ) ∧
      (∑ j : Fin H, ∑ k : Fin 1, 100 * c j k / (B : ℚ)) / (H : ℚ) ≤ 100 := by
    intro c hc0 hcB
    constructor
    · apply div_nonneg _ hHQ.le
      apply Finset.sum_nonneg
      intro j _
      apply Finset.sum_nonneg
      intro k _
      exact div_nonneg (mul_nonneg (by norm_num) (hc0 j k)) hBQ.le
    · rw [div_le_iff hHQ]
      have hcell : ∀ (j : Fin H) (k : Fin 1), 100 * c j k / (B : ℚ) ≤ 100 := by
        intro j k
        rw [div_le_iff hBQ]
        have := hcB j k
        nlinarith
      calc (∑ j : Fin H, ∑ k : Fin 1, 100 * c j k / (B : ℚ))
          ≤ ∑ _j : Fin H, (100 : ℚ) := by
            apply Finset.sum_le_sum
            intro j _
            rw [Fin.sum_univ_one]
            exact hcell j 0
        _ = (H : ℚ) * 100 := by
            rw [Finset.sum_const, Finset.card_univ, Fintype.card_fin, nsmul_eq_mul]
        _ = 100 * (H : ℚ) := mul_comm ..
  have key100 : ∀ c : Fin H → Fin 1 → ℚ, (∀ j k, c j k = (B : ℚ)) →
      (∑ j : Fin H, ∑ k : Fin 1, 100 * c j k / (B : ℚ)) / (H : ℚ) = 100 := by
    intro c hc
    have hcell : ∀ (j : Fin H) (k : Fin 1), 100 * c j k / (B : ℚ) = 100 := by
      intro j k
      rw [hc j k, mul_div_assoc, div_self (ne_of_gt hBQ), mul_one]
    rw [show (∑ j : Fin H, ∑ k : Fin 1, 100 * c j k / (B : ℚ)) = ∑ _j : Fin H, (100 : ℚ)
      from Finset.sum_congr rfl (fun j _ => by rw [Fin.sum_univ_one, hcell j 0])]
    rw [Finset.sum_const, Finset.card_univ, Fintype.card_fin, nsmul_eq_mul,
      mul_comm, mul_div_assoc, div_self (ne_of_gt hHQ), mul_one]
  have hind0 : ∀ (j : Fin H) (k : Fin 1),
      0 ≤ ∑ i : Fin B,
        (if (decide (l i j k < target i j k) && decide (target i j k ≤ u i j k)) = true
         then (1 : ℚ) else 0) := by
    intro j k
    apply Finset.sum_nonneg
    intro i _
    split <;> norm_num
  have hindB : ∀ (j : Fin H) (k : Fin 1),
      (∑ i : Fin B,
        if (decide (l i j k < target i j k) && decide (target i j k ≤ u i j k)) = true
        then (1 : ℚ) else 0) ≤ (B : ℚ) := by
    intro j k
    calc (∑ i : Fin B,
          if (decide (l i j k < target i j k) && decide (target i j k ≤ u i j k)) = true
          then (1 : ℚ) else 0)
        ≤ ∑ _i : Fin B, (1 : ℚ) := by
          apply Finset.sum_le_sum
          intro i _
          split <;> norm_num
      _ = (B : ℚ) := by
          rw [Finset.sum_const, Finset.card_univ, Fintype.card_fin, nsmul_eq_mul, mul_one]
  refine ⟨_, picp_total_value B H 1 target u l, rfl,
    (key _ hind0 hindB).1, (key _ hind0 hindB).2, ?_⟩
  intro hcov
  apply key100
  intro j k
  have hall : ∀ i : Fin B,
      (if (decide (l i j k < target i j k) && decide (target i j k ≤ u i j k)) = true
       then (1 : ℚ) else 0) = 1 := by
    intro i
    have hc : (decide (l i j k < target i j k) && decide (target i j k ≤ u i j k)) = true := by
      rw [Bool.and_eq_true, decide_eq_true_eq, decide_eq_true_eq]
      exact ⟨(hcov i j k).1, le_of_lt (hcov i j k).2⟩
    rw [if_pos hc]
  rw [Finset.sum_congr rfl (fun i _ => hall i)]
  rw [Finset.sum_const, Finset.card_univ, Fintype.card_fin, nsmul_eq_mul, mul_one]

/-- C7 (amended) witness: one batch entry, one step, one variable, target 0
strictly inside `(-1, 1)`. -/
theorem picp_single_variable_bounds_witness :
    ∃ v : ℚ,
      @picp 1 1 1 (fun _ _ _ => 0) [fun _ _ _ => 1, fun _ _ _ => -1] true
        = Except.ok (MetricResult.scalar v) ∧
      v = (∑ j : Fin 1, ∑ k : Fin 1,
        100 * (∑ i : Fin 1,
          if (decide ((-1 : ℚ) < 0) && decide ((0 : ℚ) ≤ 1)) = true
          then (1 : ℚ) else 0) / ((1 : ℕ) : ℚ)) / ((1 : ℕ) : ℚ) ∧
      0 ≤ v ∧ v ≤ 100 ∧
      ((∀ (_i : Fin 1) (_j : Fin 1) (_k : Fin 1), (-1 : ℚ) < 0 ∧ (0 : ℚ) < 1) → v = 100) :=
  picp_single_variable_bounds 1 1 (fun _ _ _ => 0) (fun _ _ _ => 1) (fun _ _ _ => -1)
    (by decide) (by decide)

/-- Invariant of the running epoch loop (with ε = 0): the controller has not
stopped yet, and either nothing has been observed, or the checkpoint holds
the snapshot whose validation loss is the minimum of all losses observed so
far. -/
def ESInvariant {P : Type} (valLoss : P → ℚ) (es : EarlyStoppingState P)
    (acc : List ℚ) : Prop :=
  es.early_stop = false ∧ es.delta = 0 ∧
  ((es.checkpoint = none ∧ es.val_loss_min = none ∧ acc = []) ∨
   (∃ m : P, es.checkpoint = some m ∧ es.val_loss_min = some (valLoss m) ∧
     valLoss m ∈ acc ∧ ∀ x ∈ acc, valLoss m ≤ x))

theorem trainLoop_succ {P : Type} (stepE : P → P) (valLoss : P → ℚ) (n : ℕ)
    (net : P) (es : EarlyStoppingState P) (acc : List ℚ) :
    trainLoop stepE valLoss (n + 1) net es acc
      = cond (earlyStoppingUpdate es (valLoss (stepE net)) (stepE net)).early_stop
          ⟨(earlyStoppingUpdate es (valLoss (stepE net)) (stepE net)).checkpoint.getD
            (stepE net),
           earlyStoppingUpdate es (valLoss (stepE net)) (stepE net), true,
           acc ++ [valLoss (stepE net)]⟩
          (trainLoop stepE valLoss n (stepE net)
            (earlyStoppingUpdate es (valLoss (stepE net)) (stepE net))
            (acc ++ [valLoss (stepE net)])) := rfl

theorem trainLoop_early_stop {P : Type} (stepE : P → P) (valLoss : P → ℚ) :
    ∀ (maxE : ℕ) (net : P) (es : EarlyStoppingState P) (acc : List ℚ),
      ESInvariant valLoss es acc →
      (trainLoop stepE valLoss maxE net es acc).stoppedEarly = true →
      ∃ m : P,
        (trainLoop stepE valLoss maxE net es acc).net = m ∧
        (trainLoop stepE valLoss maxE net es acc).es.checkpoint = some m ∧
        (trainLoop stepE valLoss maxE net es acc).es.val_loss_min = some (valLoss m) ∧
        valLoss m ∈ (trainLoop stepE valLoss maxE net es acc).losses ∧
        (∀ x ∈ (trainLoop stepE valLoss maxE net es acc).losses, valLoss m ≤ x) ∧
        1 ≤ (trainLoop stepE valLoss maxE net es acc).es.counter := by
  intro maxE
  induction maxE with
  | zero =>
    intro net es acc _ hstop
    exact Bool.noConfusion hstop
  | succ n ih =>
    intro net es acc hinv hstop
    obtain ⟨hes, hdelta, hdisj⟩ := hinv
    cases hb : esImproves es.val_loss_min 0 (valLoss (stepE net)) with
    | true =>
      -- improving epoch: new checkpoint at the strictly smaller loss, no stop
      simp only [trainLoop_succ, earlyStoppingUpdate, hdelta, hb, Bool.cond_true, hes,
        Bool.cond_false] at hstop ⊢
      apply ih (stepE net) _ _ _ hstop
      refine ⟨rfl, rfl, Or.inr ⟨stepE net, rfl, rfl, ?_, ?_⟩⟩
      · exact List.mem_append_right acc (List.mem_singleton.mpr rfl)
      · intro x hx
        rcases List.mem_append.mp hx with hx | hx
        · rcases hdisj with ⟨_, hnone, hempty⟩ | ⟨m, _, hmin, _, hall⟩
          · rw [hempty] at hx
            cases hx
          · have hlt : valLoss (stepE net) < valLoss m := by
              rw [hmin] at hb
              simp only [esImproves, decide_eq_true_eq, sub_zero] at hb
              exact hb
            exact le_of_lt (lt_of_lt_of_le hlt (hall x hx))
        · rw [List.mem_singleton.mp hx]
    | false =>
      -- non-improving epoch: a checkpoint from the invariant must exist
      have hsome : ∃ m : P, es.checkpoint = some m ∧
          es.val_loss_min = some (valLoss m) ∧
          valLoss m ∈ acc ∧ ∀ x ∈ acc, valLoss m ≤ x := by
        rcases hdisj with ⟨_, hnone, _⟩ | h
        · rw [hnone] at hb
          simp only [esImproves] at hb
          exact Bool.noConfusion hb
        · exact h
      obtain ⟨m, hck, hmin, hmem, hall⟩ := hsome
      have hnotless : valLoss m ≤ valLoss (stepE net) := by
        rw [hmin] at hb
        simp only [esImproves, decide_eq_false_iff_not, sub_zero, not_lt] at hb
        exact hb
      simp only [trainLoop_succ, earlyStoppingUpdate, hdelta, hb, Bool.cond_false, hes,
        Bool.false_or] at hstop ⊢
      cases hreach : decide (es.patience ≤ es.counter + 1) with
      | true =>
        -- patience reached: the loop stops and reloads the checkpoint
        simp only [hreach, Bool.cond_true] at hstop ⊢
        refine ⟨m, ?_, hck, hmin, List.mem_append_left _ hmem, ?_, ?_⟩
        · show es.checkpoint.getD (stepE net) = m
          rw [hck]
          rfl
        · intro x hx
          rcases List.mem_append.mp hx with hx | hx
          · exact hall x hx
          · rw [List.mem_singleton.mp hx]
            exact hnotless
        · exact Nat.le_add_left 1 es.counter
      | false =>
        -- patience not yet reached: the loop continues, invariant preserved
        simp only [hreach, Bool.cond_false] at hstop ⊢
        apply ih (stepE net) _ _ _ hstop
        refine ⟨rfl, rfl, Or.inr ⟨m, hck, hmin, List.mem_append_left _ hmem, ?_⟩⟩
        intro x hx
        rcases List.mem_append.mp hx with hx | hx
        · exact hall x hx
        · rw [List.mem_singleton.mp hx]
          exact hnotless

/-- C1: whenever the epoch loop of `train` exits through the early-stopping
`break`, the model it returns is exactly the controller's best checkpoint:
its recorded validation loss is the minimum of every validation loss
observed during the run, and the controller's counter is positive, so the
checkpoint was written in a strictly earlier epoch than the stopping one —
the returned model never carries the final epoch's freshly trained
parameters. (With ε = 0, the source controller's default.) -/
theorem train_early_stop_returns_best_checkpoint {P : Type} (stepE : P → P)
    (valLoss : P → ℚ) (max_epochs patience : ℕ) (net0 : P)
    (hstop : (train stepE valLoss max_epochs net0 patience 0).stoppedEarly = true) :
    ∃ m : P,
      (train stepE valLoss max_epochs net0 patience 0).net = m ∧
      (train stepE valLoss max_epochs net0 patience 0).es.checkpoint = some m ∧
      (train stepE valLoss max_epochs net0 patience 0).es.val_loss_min
        = some (valLoss m) ∧
      valLoss m ∈ (train stepE valLoss max_epochs net0 patience 0).losses ∧
      (∀ x ∈ (train stepE valLoss max_epochs net0 patience 0).losses, valLoss m ≤ x) ∧
      1 ≤ (train stepE valLoss max_epochs net0 patience 0).es.counter :=
  trainLoop_early_stop stepE valLoss max_epochs net0
    (EarlyStoppingState.init P patience 0) []
    ⟨rfl, rfl, Or.inl ⟨rfl, rfl, rfl⟩⟩ hstop

/-- C1 witness: a run with constant validation loss 3 and patience 1 stops
in the second epoch and returns the first epoch's checkpoint. -/
theorem train_early_stop_returns_best_checkpoint_witness :
    ∃ m : ℕ,
      (train Nat.succ (fun _ => (3 : ℚ)) 2 0 1 0).net = m ∧
      (train Nat.succ (fun _ => (3 : ℚ)) 2 0 1 0).es.checkpoint = some m ∧
      (train Nat.succ (fun _ => (3 : ℚ)) 2 0 1 0).es.val_loss_min = some 3 ∧
      (3 : ℚ) ∈ (train Nat.succ (fun _ => (3 : ℚ)) 2 0 1 0).losses ∧
      (∀ x ∈ (train Nat.succ (fun _ => (3 : ℚ)) 2 0 1 0).losses, (3 : ℚ) ≤ x) ∧
      1 ≤ (train Nat.succ (fun _ => (3 : ℚ)) 2 0 1 0).es.counter :=
  train_early_stop_returns_best_checkpoint Nat.succ (fun _ => (3 : ℚ)) 2 1 0
    (by norm_num [train, trainLoop, earlyStoppingUpdate, esImproves,
      EarlyStoppingState.init])

end ProLoaF
